import Mathlib

/-!
A shallow embedding of the Political-Evolution-Simulator repository:
`protoype.py` (the prototype, coalition-quota variant) and
`political_evolution_simulator/Political Simulation.py` (the detailed,
plurality variant).  Real numbers are modelled by the rationals; the
normal random draws, and the supporter shuffle of the prototype, are
passed in as explicit parameters, so every definition is executable.
-/

namespace PoliSim

/-- Numpy argmax helper: scans the tail of the list, keeping the first
index at which the running maximum was attained.  `bi` is the best index
so far, `best` its value, and `cur` the index of the head of `l` in the
full list. -/
def argmaxGo {α : Type} [LinearOrder α] : List α → α → ℕ → ℕ → ℕ × α
  | [], best, bi, _ => (bi, best)
  | a :: t, best, bi, cur =>
    if best < a then argmaxGo t a cur (cur + 1) else argmaxGo t best bi (cur + 1)

/-- Index of the first maximal element of a list, as `np.argmax` computes
it (we return 0 on the empty list, where numpy raises instead; the
fallible wrapper below accounts for that). -/
def argmaxIdx {α : Type} [LinearOrder α] : List α → ℕ
  | [] => 0
  | x :: xs => (argmaxGo xs x 0 1).1

/-- Embedding of `np.bincount(ballots, minlength=n)`: entry `i` counts the
occurrences of `i` among the ballots; the length is the maximum of
`minlength` and one more than the largest ballot. -/
def bincount (ballots : List ℕ) (minlength : ℕ) : List ℕ :=
  (List.range (max minlength (ballots.foldr (fun b m => max (b + 1) m) 0))).map
    (fun i => ballots.count i)

/-- Embedding of `np.clip(x, lo, hi)`. -/
def clip (x lo hi : ℚ) : ℚ := min (max x lo) hi

/-- The module-level configuration constants of both source files
(the prototype has no `WINNING_COALITION_SIZE`; it is simply unused
there). -/
structure Params where
  N_VOTERS : ℕ
  RESOURCE_POOL : ℚ
  PUBLIC_GOODS_MUT_STD : ℚ
  POLICY_MUT_STD : ℚ
  THETA : ℚ
  TAU : ℚ
  PHI : ℚ
  WINNING_COALITION_SIZE : ℚ
deriving DecidableEq

/-- The `risk_type` strings `'safe'` and `'risk'`. -/
inductive RiskType : Type
  | safe : RiskType
  | risk : RiskType
deriving DecidableEq, Inhabited

namespace Detailed

/-- Voter of the detailed variant.  The transient `included` scratch list
of the Python class is not stored: it is reset and fully recomputed at
every generation, so the embedding carries it in the per-generation
`VoteInfo` record instead. -/
structure Voter where
  ideology : ℚ
  risk_type : RiskType
deriving DecidableEq, Inhabited

/-- Candidate of the detailed variant. -/
structure Candidate where
  ideology : ℚ
  alpha : ℚ
deriving DecidableEq, Inhabited

/-- The risk-dependent threshold `TAU if self.risk_type == 'risk' else PHI`. -/
def threshold (P : Params) (v : Voter) : ℚ :=
  if v.risk_type = RiskType.risk then P.TAU else P.PHI

/-- `Voter.inclusion` of the detailed variant: the boolean stored into
`self.included[cid]` and returned. -/
def Voter.inclusion (P : Params) (v : Voter) (coal_prob cand_ideo : ℚ) : Bool :=
  decide (|v.ideology - cand_ideo| ≤ P.THETA) && decide (coal_prob ≥ threshold P v)

/-- `Voter.utility` of the detailed variant.  The `included` argument
stands for `self.included[cid]`, which the caller sets via
`Voter.inclusion` immediately before evaluating the utility. -/
def Voter.utility (P : Params) (v : Voter) (included : Bool) (cand_ideo cand_alpha : ℚ) : ℚ :=
  let pay_ideo := (v.ideology - cand_ideo) ^ 2
  let pay_public := cand_alpha * (P.RESOURCE_POOL / (P.N_VOTERS : ℚ))
  let pay_private :=
    if included then (1 - cand_alpha) * (P.RESOURCE_POOL / P.WINNING_COALITION_SIZE) else 0
  pay_ideo + pay_public + pay_private

/-- `Candidate.mutate` of the detailed variant: alpha is clipped to
`[0, 1]`, ideology to `[-100, 100]`; the two noises are the normal draws. -/
def Candidate.mutate (c : Candidate) (noise_alpha noise_ideo : ℚ) (mutate_ideology : Bool) :
    Candidate :=
  { alpha := clip (c.alpha + noise_alpha) 0 1,
    ideology := clip (if mutate_ideology then c.ideology + noise_ideo else c.ideology) (-100) 100 }

/-- The fixed-quota coalition-probability estimate
`WINNING_COALITION_SIZE / N_VOTERS` used for every candidate in the
detailed variant. -/
def coal_prob_fixed (P : Params) : ℚ := P.WINNING_COALITION_SIZE / (P.N_VOTERS : ℚ)

/-- The `included` flags one voter computes across the candidate list
(the inner loop of `run_generation_detailed` writes exactly entry `cid`
of `self.included` before reading it back in the utility). -/
def included_list (P : Params) (cands : List Candidate) (v : Voter) : List Bool :=
  cands.map (fun c => Voter.inclusion P v (coal_prob_fixed P) c.ideology)

/-- The utilities one voter computes across the candidate list in
`run_generation_detailed`. -/
def utils_list (P : Params) (cands : List Candidate) (v : Voter) : List ℚ :=
  cands.map (fun c =>
    Voter.utility P v (Voter.inclusion P v (coal_prob_fixed P) c.ideology) c.ideology c.alpha)

/-- One entry of the `vote_info` list built by `run_generation_detailed`. -/
structure VoteInfo where
  voter_id : ℕ
  risk_type : RiskType
  utilities : List ℚ
  included : List Bool
  ballot : ℕ
deriving DecidableEq

/-- The state produced by one call of `run_generation_detailed`:
the returned `(vote_info, counts, winner_idx)` triple together with the
post-replacement candidate population `self.candidates`. -/
structure GenResult where
  vote_info : List VoteInfo
  counts : List ℕ
  winnerIdx : ℕ
  new_cands : List Candidate
deriving DecidableEq

/-- The `vote_info` list built by the first loop of
`run_generation_detailed` (`for vid, v in enumerate(self.voters)`). -/
def vote_info_of (P : Params) (voters : List Voter) (cands : List Candidate) : List VoteInfo :=
  (List.range voters.length).map (fun vid =>
    let v := voters.getD vid default
    let utils := utils_list P cands v
    { voter_id := vid
      risk_type := v.risk_type
      utilities := utils
      included := included_list P cands v
      ballot := argmaxIdx utils : VoteInfo })

/-- Embedding of `DetailedElectionSim.run_generation_detailed`.  `noise`
gives, per candidate slot, the pair of normal draws its mutation would
consume. -/
def run_generation_detailed (P : Params) (voters : List Voter) (cands : List Candidate)
    (noise : ℕ → ℚ × ℚ) : GenResult :=
  let vote_info := vote_info_of P voters cands
  let ballots := vote_info.map VoteInfo.ballot
  let counts := bincount ballots cands.length
  let w := argmaxIdx counts
  let new_cands := (List.range cands.length).map (fun cid =>
    if cid = w then cands.getD cid default
    else Candidate.mutate (cands.getD w default) (noise cid).1 (noise cid).2 true)
  { vote_info := vote_info, counts := counts, winnerIdx := w, new_cands := new_cands }

/-- Defining equation: the `vote_info` component of a detailed generation. -/
theorem run_vote_info (P : Params) (voters : List Voter) (cands : List Candidate)
    (noise : ℕ → ℚ × ℚ) :
    (run_generation_detailed P voters cands noise).vote_info = vote_info_of P voters cands := rfl

/-- Defining equation: the `counts` component of a detailed generation. -/
theorem run_counts (P : Params) (voters : List Voter) (cands : List Candidate)
    (noise : ℕ → ℚ × ℚ) :
    (run_generation_detailed P voters cands noise).counts =
      bincount ((vote_info_of P voters cands).map VoteInfo.ballot) cands.length := rfl

/-- Defining equation: the winner of a detailed generation. -/
theorem run_winnerIdx (P : Params) (voters : List Voter) (cands : List Candidate)
    (noise : ℕ → ℚ × ℚ) :
    (run_generation_detailed P voters cands noise).winnerIdx =
      argmaxIdx ((run_generation_detailed P voters cands noise).counts) := rfl

/-- Defining equation: the post-replacement population of a detailed
generation. -/
theorem run_new_cands (P : Params) (voters : List Voter) (cands : List Candidate)
    (noise : ℕ → ℚ × ℚ) :
    (run_generation_detailed P voters cands noise).new_cands =
      (List.range cands.length).map (fun cid =>
        if cid = (run_generation_detailed P voters cands noise).winnerIdx then cands.getD cid default
        else Candidate.mutate
          (cands.getD (run_generation_detailed P voters cands noise).winnerIdx default)
          (noise cid).1 (noise cid).2 true) := rfl

/-- True when some voter's inclusion flag comes out true for some
candidate during the voter loop of `run_generation_detailed`; exactly
then does the source evaluate the private-goods division
`RESOURCE_POOL / WINNING_COALITION_SIZE`. -/
def some_included (P : Params) (voters : List Voter) (cands : List Candidate) : Bool :=
  voters.any (fun v => cands.any (fun c =>
    Voter.inclusion P v (coal_prob_fixed P) c.ideology))

/-- Fallible wrapper around `run_generation_detailed`, recording the
Python exceptions the source can raise, in the source's evaluation
order: `np.argmax` on an empty sequence when the candidate list is
empty; the division `WINNING_COALITION_SIZE / N_VOTERS` (computed per
voter and candidate, before inclusion and utility) raising when voters
exist but `N_VOTERS` is zero; the private-goods division
`RESOURCE_POOL / WINNING_COALITION_SIZE` raising when the coalition size
is zero and some voter's inclusion flag is true (only then is that
branch of the conditional expression evaluated); and numpy rejecting a
negative scale when a mutation is actually performed (which needs at
least one loser slot, and happens after the voter loop). -/
def run_generation_detailedE (P : Params) (voters : List Voter) (cands : List Candidate)
    (noise : ℕ → ℚ × ℚ) : Except String GenResult :=
  if cands.length = 0 then
    Except.error "attempt to get argmax of an empty sequence"
  else if voters.length ≠ 0 ∧ P.N_VOTERS = 0 then
    Except.error "division by zero"
  else if P.WINNING_COALITION_SIZE = 0 ∧ some_included P voters cands = true then
    Except.error "division by zero"
  else if (P.PUBLIC_GOODS_MUT_STD < 0 ∨ P.POLICY_MUT_STD < 0) ∧ 2 ≤ cands.length then
    Except.error "scale is smaller than zero"
  else
    Except.ok (run_generation_detailed P voters cands noise)

/-- Mean squared ideological distance from a candidate to the voter
population.  Modelled from the spec: the quantity the degenerate-scenario
sentence of the spec says the winner minimizes. -/
def meanSqDist (voters : List Voter) (c : Candidate) : ℚ :=
  ((voters.map (fun v => (v.ideology - c.ideology) ^ 2)).sum) / (voters.length : ℚ)

/-- One row of the `candidate_records` list that
`run_simulation_detailed` appends after a generation has run. -/
structure CandRecord where
  generation : ℕ
  candidate_id : ℕ
  ideology : ℚ
  alpha : ℚ
  is_winner : Bool
deriving DecidableEq

/-- The `candidate_records` rows `run_simulation_detailed` emits for one
generation: it iterates over `self.candidates` after
`run_generation_detailed` has already replaced the losers. -/
def candidate_records (gen : ℕ) (res : GenResult) : List CandRecord :=
  (List.range res.new_cands.length).map (fun cid =>
    { generation := gen
      candidate_id := cid
      ideology := (res.new_cands.getD cid default).ideology
      alpha := (res.new_cands.getD cid default).alpha
      is_winner := decide (cid = res.winnerIdx) })

/-- One row of the `vote_records` list of `run_simulation_detailed`; the
per-candidate columns `candN_ideology` and `candN_alpha` are gathered
into lists. -/
structure VoterRecord where
  generation : ℕ
  voter_id : ℕ
  risk_type : RiskType
  voted_for : ℕ
  voter_ideology : ℚ
  cand_ideology : List ℚ
  cand_alpha : List ℚ
  cand_included : List Bool
  cand_utility : List ℚ
deriving DecidableEq

/-- The per-voter rows `run_simulation_detailed` emits for one
generation: utilities and inclusion flags come from the generation's
`vote_info`, while the per-candidate ideology and alpha columns read
`self.candidates`, already replaced by `run_generation_detailed`. -/
def voter_records (gen : ℕ) (voters : List Voter) (res : GenResult) : List VoterRecord :=
  res.vote_info.map (fun info =>
    { generation := gen
      voter_id := info.voter_id
      risk_type := info.risk_type
      voted_for := info.ballot
      voter_ideology := (voters.getD info.voter_id default).ideology
      cand_ideology := res.new_cands.map Candidate.ideology
      cand_alpha := res.new_cands.map Candidate.alpha
      cand_included := info.included
      cand_utility := info.utilities })

end Detailed

namespace Proto

/-- Voter of the prototype variant. -/
structure Voter where
  ideology : ℚ
  risk_type : RiskType
deriving DecidableEq, Inhabited

/-- Candidate of the prototype variant, including its `supporters` and
`winning_coalition` sets of voter indices (both empty at construction). -/
structure Candidate where
  policy : ℚ
  alpha : ℚ
  supporters : Finset ℕ
  winning_coalition : Finset ℕ
deriving DecidableEq

instance : Inhabited Candidate := ⟨⟨0, 0, ∅, ∅⟩⟩

/-- `Candidate.mutate` of the prototype variant: alpha clipped to
`[0, 1]`, policy clipped to `[0, 100]`; the result is a fresh
`Candidate(new_policy, new_alpha)`, so its sets are empty. -/
def Candidate.mutate (c : Candidate) (noise_alpha noise_policy : ℚ) (mutate_policy : Bool) :
    Candidate :=
  { policy := clip (if mutate_policy then c.policy + noise_policy else c.policy) 0 100,
    alpha := clip (c.alpha + noise_alpha) 0 1,
    supporters := ∅,
    winning_coalition := ∅ }

/-- The coalition-probability estimate of `run_generation`:
`len(candidate.winning_coalition) / N_VOTERS if candidate.winning_coalition else 1/N_VOTERS`. -/
def coalition_prob_of (P : Params) (c : Candidate) : ℚ :=
  if c.winning_coalition.Nonempty then (c.winning_coalition.card : ℚ) / (P.N_VOTERS : ℚ)
  else 1 / (P.N_VOTERS : ℚ)

/-- `Voter.inclusion` of the prototype variant. -/
def Voter.inclusion (P : Params) (v : Voter) (c : Candidate) (coalition_prob : ℚ) : Bool :=
  decide (|v.ideology - c.policy| ≤ P.THETA) &&
    decide (coalition_prob ≥ (if v.risk_type = RiskType.risk then P.TAU else P.PHI))

/-- `Voter.utility` of the prototype variant: note the negative sign on
the policy-loss term, unlike the detailed variant. -/
def Voter.utility (P : Params) (v : Voter) (c : Candidate) (included : Bool) : ℚ :=
  let policy_loss := -((v.ideology - c.policy) ^ 2)
  let public_payoff := c.alpha * (P.RESOURCE_POOL / (P.N_VOTERS : ℚ))
  let private_payoff :=
    if included then (1 - c.alpha) * (P.RESOURCE_POOL / (P.N_VOTERS : ℚ)) else 0
  policy_loss + public_payoff + private_payoff

/-- The utilities one voter computes across the candidate list in the
prototype `run_generation`. -/
def utils_list (P : Params) (cands : List Candidate) (v : Voter) : List ℚ :=
  cands.map (fun c =>
    let coalition_prob := coalition_prob_of P c
    Voter.utility P v c (Voter.inclusion P v c coalition_prob))

/-- The state produced by one call of the prototype `run_generation`:
`mid_cands` is the candidate list with `supporters` and
`winning_coalition` filled in (step 2), `winner` and `coalition_sizes`
are the returned pair, and `new_cands` is `self.candidates` after the
replacement step. -/
structure GenResult where
  ballots : List ℕ
  mid_cands : List Candidate
  coalition_sizes : List ℕ
  winnerIdx : ℕ
  winner : Candidate
  new_cands : List Candidate
deriving DecidableEq

/-- The ballot list of the prototype `run_generation` (step 1: each voter
votes for its argmax-utility candidate). -/
def ballots_of (P : Params) (voters : List Voter) (cands : List Candidate) : List ℕ :=
  voters.map (fun v => argmaxIdx (utils_list P cands v))

/-- `candidate.supporters` as assigned in step 2 of `run_generation`:
the set of voter indices whose ballot is `idx`. -/
def supporters_of (voters_len : ℕ) (ballots : List ℕ) (idx : ℕ) : Finset ℕ :=
  (Finset.range voters_len).filter (fun i => ballots.getD i 0 = idx)

/-- `candidate.winning_coalition` as assigned in step 2 of
`run_generation`: the first `int(0.5 * N_VOTERS)` entries of the shuffled
supporter list.  `shuffle idx` stands for the `np.random.shuffle` applied
to candidate `idx`'s supporter list, which is fed the supporters in
ascending order (the role `list(...)` plays). -/
def coalition_of (P : Params) (shuffle : ℕ → List ℕ → List ℕ) (voters_len : ℕ)
    (ballots : List ℕ) (idx : ℕ) : Finset ℕ :=
  ((shuffle idx ((supporters_of voters_len ballots idx).sort (· ≤ ·))).take
    (P.N_VOTERS / 2)).toFinset

/-- The candidate list after step 2 of `run_generation`: each candidate
with its `supporters` and `winning_coalition` filled in. -/
def mid_cands_of (P : Params) (shuffle : ℕ → List ℕ → List ℕ) (voters_len : ℕ)
    (ballots : List ℕ) (cands : List Candidate) : List Candidate :=
  (List.range cands.length).map (fun idx =>
    { policy := (cands.getD idx default).policy
      alpha := (cands.getD idx default).alpha
      supporters := supporters_of voters_len ballots idx
      winning_coalition := coalition_of P shuffle voters_len ballots idx })

/-- Embedding of `ElectionSim.run_generation`.  `noise k` gives the
normal draws of the `k`-th replacement mutation. -/
def run_generation (P : Params) (voters : List Voter) (cands : List Candidate)
    (shuffle : ℕ → List ℕ → List ℕ) (noise : ℕ → ℚ × ℚ) (mutate_policy : Bool) : GenResult :=
  let ballots := ballots_of P voters cands
  let mid_cands := mid_cands_of P shuffle voters.length ballots cands
  let coalition_sizes := mid_cands.map (fun c => c.winning_coalition.card)
  let w := argmaxIdx coalition_sizes
  let winner := mid_cands.getD w default
  let new_cands := winner :: (List.range (cands.length - 1)).map (fun k =>
    Candidate.mutate winner (noise k).1 (noise k).2 mutate_policy)
  { ballots := ballots, mid_cands := mid_cands, coalition_sizes := coalition_sizes,
    winnerIdx := w, winner := winner, new_cands := new_cands }

/-- Defining equation: the ballots of a prototype generation. -/
theorem run_ballots (P : Params) (voters : List Voter) (cands : List Candidate)
    (shuffle : ℕ → List ℕ → List ℕ) (noise : ℕ → ℚ × ℚ) (mutate_policy : Bool) :
    (run_generation P voters cands shuffle noise mutate_policy).ballots =
      ballots_of P voters cands := rfl

/-- Defining equation: the mid-generation candidates of a prototype
generation. -/
theorem run_mid_cands (P : Params) (voters : List Voter) (cands : List Candidate)
    (shuffle : ℕ → List ℕ → List ℕ) (noise : ℕ → ℚ × ℚ) (mutate_policy : Bool) :
    (run_generation P voters cands shuffle noise mutate_policy).mid_cands =
      mid_cands_of P shuffle voters.length (ballots_of P voters cands) cands := rfl

/-- Defining equation: the coalition sizes of a prototype generation. -/
theorem run_coalition_sizes (P : Params) (voters : List Voter) (cands : List Candidate)
    (shuffle : ℕ → List ℕ → List ℕ) (noise : ℕ → ℚ × ℚ) (mutate_policy : Bool) :
    (run_generation P voters cands shuffle noise mutate_policy).coalition_sizes =
      (run_generation P voters cands shuffle noise mutate_policy).mid_cands.map
        (fun c => c.winning_coalition.card) := rfl

/-- Defining equation: the winner index of a prototype generation. -/
theorem run_winnerIdx_proto (P : Params) (voters : List Voter) (cands : List Candidate)
    (shuffle : ℕ → List ℕ → List ℕ) (noise : ℕ → ℚ × ℚ) (mutate_policy : Bool) :
    (run_generation P voters cands shuffle noise mutate_policy).winnerIdx =
      argmaxIdx ((run_generation P voters cands shuffle noise mutate_policy).coalition_sizes) := rfl

/-- Defining equation: the winner of a prototype generation. -/
theorem run_winner (P : Params) (voters : List Voter) (cands : List Candidate)
    (shuffle : ℕ → List ℕ → List ℕ) (noise : ℕ → ℚ × ℚ) (mutate_policy : Bool) :
    (run_generation P voters cands shuffle noise mutate_policy).winner =
      (run_generation P voters cands shuffle noise mutate_policy).mid_cands.getD
        (run_generation P voters cands shuffle noise mutate_policy).winnerIdx default := rfl

/-- Defining equation: the post-replacement population of a prototype
generation (`new_candidates = [winner]` then mutated copies are appended
until the population is full again). -/
theorem run_new_cands_proto (P : Params) (voters : List Voter) (cands : List Candidate)
    (shuffle : ℕ → List ℕ → List ℕ) (noise : ℕ → ℚ × ℚ) (mutate_policy : Bool) :
    (run_generation P voters cands shuffle noise mutate_policy).new_cands =
      (run_generation P voters cands shuffle noise mutate_policy).winner ::
        (List.range (cands.length - 1)).map (fun k =>
          Candidate.mutate (run_generation P voters cands shuffle noise mutate_policy).winner
            (noise k).1 (noise k).2 mutate_policy) := rfl

end Proto

/-! Generic lemmas about the numpy helpers. -/

theorem argmaxGo_fst_lt {α : Type} [LinearOrder α] (l : List α) :
    ∀ (best : α) (bi cur : ℕ), bi < cur → (argmaxGo l best bi cur).1 < cur + l.length := by
  induction l with
  | nil => intro best bi cur h; simpa [argmaxGo] using h
  | cons a t ih =>
    intro best bi cur h
    simp only [argmaxGo]
    by_cases hc : best < a
    · have := ih a cur (cur + 1) (Nat.lt_succ_self cur)
      simp only [if_pos hc, List.length_cons]
      omega
    · have := ih best bi (cur + 1) (Nat.lt_succ_of_lt h)
      simp only [if_neg hc, List.length_cons]
      omega

theorem argmaxIdx_lt_length {α : Type} [LinearOrder α] (l : List α) (h : l ≠ []) :
    argmaxIdx l < l.length := by
  match l, h with
  | x :: xs, _ =>
    have := argmaxGo_fst_lt xs x 0 1 Nat.one_pos
    simpa [argmaxIdx, List.length_cons, Nat.add_comm] using this

theorem argmaxGo_snd_le {α : Type} [LinearOrder α] (l : List α) :
    ∀ (best : α) (bi cur : ℕ),
      best ≤ (argmaxGo l best bi cur).2 ∧ ∀ y ∈ l, y ≤ (argmaxGo l best bi cur).2 := by
  induction l with
  | nil => intro best bi cur; exact ⟨le_refl _, by simp⟩
  | cons a t ih =>
    intro best bi cur
    simp only [argmaxGo]
    by_cases hc : best < a
    · simp only [if_pos hc]
      obtain ⟨h1, h2⟩ := ih a cur (cur + 1)
      refine ⟨le_trans (le_of_lt hc) h1, ?_⟩
      intro y hy
      rcases List.mem_cons.mp hy with rfl | hy
      · exact h1
      · exact h2 y hy
    · simp only [if_neg hc]
      obtain ⟨h1, h2⟩ := ih best bi (cur + 1)
      refine ⟨h1, ?_⟩
      intro y hy
      rcases List.mem_cons.mp hy with rfl | hy
      · exact le_trans (le_of_not_lt hc) h1
      · exact h2 y hy

theorem argmaxGo_get {α : Type} [LinearOrder α] (F : List α) (l : List α) :
    ∀ (best : α) (bi cur : ℕ), F.get? bi = some best → (∀ k, F.get? (cur + k) = l.get? k) →
      F.get? (argmaxGo l best bi cur).1 = some (argmaxGo l best bi cur).2 := by
  induction l with
  | nil => intro best bi cur h1 _; simpa [argmaxGo] using h1
  | cons a t ih =>
    intro best bi cur h1 h2
    have hcur : F.get? cur = some a := by simpa using h2 0
    simp only [argmaxGo]
    by_cases hc : best < a
    · simp only [if_pos hc]
      refine ih a cur (cur + 1) hcur (fun k => ?_)
      have := h2 (k + 1)
      simpa [Nat.add_assoc, Nat.add_comm 1 k] using this
    · simp only [if_neg hc]
      refine ih best bi (cur + 1) h1 (fun k => ?_)
      have := h2 (k + 1)
      simpa [Nat.add_assoc, Nat.add_comm 1 k] using this

theorem argmaxIdx_spec {α : Type} [LinearOrder α] (l : List α) (h : l ≠ []) :
    ∃ v, l.get? (argmaxIdx l) = some v ∧ ∀ y ∈ l, y ≤ v := by
  match l, h with
  | x :: xs, _ =>
    refine ⟨(argmaxGo xs x 0 1).2, ?_, ?_⟩
    · simpa [argmaxIdx] using
        argmaxGo_get (x :: xs) xs x 0 1 rfl (fun k => by simp [Nat.add_comm 1 k])
    · intro y hy
      obtain ⟨h1, h2⟩ := argmaxGo_snd_le xs x 0 1
      rcases List.mem_cons.mp hy with rfl | hy
      · exact h1
      · exact h2 y hy

theorem foldr_max_le (ballots : List ℕ) (n : ℕ) (h : ∀ b ∈ ballots, b < n) :
    ballots.foldr (fun b m => max (b + 1) m) 0 ≤ n := by
  induction ballots with
  | nil => simp
  | cons a t ih =>
    simp only [List.foldr_cons]
    have ha := h a (List.mem_cons_self a t)
    have ht := ih (fun b hb => h b (List.mem_cons_of_mem a hb))
    omega

theorem bincount_eq (ballots : List ℕ) (n : ℕ) (h : ∀ b ∈ ballots, b < n) :
    bincount ballots n = (List.range n).map (fun i => ballots.count i) := by
  unfold bincount
  rw [Nat.max_eq_left (foldr_max_le ballots n h)]

theorem bincount_length (ballots : List ℕ) (n : ℕ) (h : ∀ b ∈ ballots, b < n) :
    (bincount ballots n).length = n := by
  rw [bincount_eq ballots n h]
  simp

theorem sum_map_range {M : Type} [AddCommMonoid M] (f : ℕ → M) (n : ℕ) :
    ((List.range n).map f).sum = ∑ i in Finset.range n, f i := by
  induction n with
  | zero => simp
  | succ m ih => rw [List.range_succ, List.map_append, List.sum_append, Finset.sum_range_succ, ih]; simp

theorem sum_range_count (l : List ℕ) (n : ℕ) (h : ∀ b ∈ l, b < n) :
    ∑ i in Finset.range n, l.count i = l.length := by
  induction l with
  | nil => simp
  | cons a t ih =>
    have ha : a ∈ Finset.range n := Finset.mem_range.mpr (h a (List.mem_cons_self a t))
    have ht := ih (fun b hb => h b (List.mem_cons_of_mem a hb))
    simp only [List.count_cons, List.length_cons, beq_iff_eq]
    rw [Finset.sum_add_distrib, ht, Finset.sum_ite_eq (Finset.range n) a (fun _ => 1)]
    simp [ha]

theorem bincount_sum (ballots : List ℕ) (n : ℕ) (h : ∀ b ∈ ballots, b < n) :
    (bincount ballots n).sum = ballots.length := by
  rw [bincount_eq ballots n h, sum_map_range, sum_range_count ballots n h]

theorem clip_bounds (x lo hi : ℚ) (h : lo ≤ hi) : lo ≤ clip x lo hi ∧ clip x lo hi ≤ hi :=
  ⟨le_min (le_max_right x lo) h, min_le_right _ _⟩

theorem getElem?_eq_some_getD {α : Type} (l : List α) (n : ℕ) (d : α) (h : n < l.length) :
    l[n]? = some (l.getD n d) := by
  rw [List.getD_eq_getElem?_getD, List.getElem?_eq_getElem h]
  rfl

namespace Detailed

theorem utils_list_length (P : Params) (cands : List Candidate) (v : Voter) :
    (utils_list P cands v).length = cands.length := by
  simp [utils_list]

theorem ballots_lt (P : Params) (voters : List Voter) (cands : List Candidate)
    (h : cands ≠ []) :
    ∀ b ∈ (vote_info_of P voters cands).map VoteInfo.ballot, b < cands.length := by
  intro b hb
  simp only [vote_info_of, List.map_map, List.mem_map, List.mem_range, Function.comp] at hb
  obtain ⟨vid, _, rfl⟩ := hb
  have hne : utils_list P cands (voters.getD vid default) ≠ [] := by
    intro hnil
    apply h
    have := utils_list_length P cands (voters.getD vid default)
    rw [hnil] at this
    exact List.length_eq_zero.mp this.symm
  have := argmaxIdx_lt_length _ hne
  rwa [utils_list_length] at this

theorem counts_length (P : Params) (voters : List Voter) (cands : List Candidate)
    (noise : ℕ → ℚ × ℚ) (h : cands ≠ []) :
    (run_generation_detailed P voters cands noise).counts.length = cands.length := by
  rw [run_counts]
  exact bincount_length _ _ (ballots_lt P voters cands h)

theorem winnerIdx_lt (P : Params) (voters : List Voter) (cands : List Candidate)
    (noise : ℕ → ℚ × ℚ) (h : cands ≠ []) :
    (run_generation_detailed P voters cands noise).winnerIdx < cands.length := by
  rw [run_winnerIdx]
  have hlen := counts_length P voters cands noise h
  have hne : (run_generation_detailed P voters cands noise).counts ≠ [] := by
    intro h0
    rw [h0] at hlen
    exact h (List.length_eq_zero.mp hlen.symm)
  have := argmaxIdx_lt_length _ hne
  rwa [hlen] at this

end Detailed

namespace Proto

theorem utils_list_length_proto (P : Params) (cands : List Candidate) (v : Voter) :
    (utils_list P cands v).length = cands.length := by
  simp [utils_list]

theorem ballots_of_lt (P : Params) (voters : List Voter) (cands : List Candidate)
    (h : cands ≠ []) : ∀ b ∈ ballots_of P voters cands, b < cands.length := by
  intro b hb
  simp only [ballots_of, List.mem_map] at hb
  obtain ⟨v, _, rfl⟩ := hb
  have hne : utils_list P cands v ≠ [] := by
    intro hnil
    apply h
    have := utils_list_length_proto P cands v
    rw [hnil] at this
    exact List.length_eq_zero.mp this.symm
  have := argmaxIdx_lt_length _ hne
  rwa [utils_list_length_proto] at this

theorem ballots_of_length (P : Params) (voters : List Voter) (cands : List Candidate) :
    (ballots_of P voters cands).length = voters.length := by
  simp [ballots_of]

theorem supporters_card_sum (P : Params) (voters : List Voter) (cands : List Candidate)
    (h : cands ≠ []) :
    ∑ idx in Finset.range cands.length,
      (supporters_of voters.length (ballots_of P voters cands) idx).card = voters.length := by
  have hlen := ballots_of_length P voters cands
  have hmem : ∀ i ∈ Finset.range voters.length,
      (ballots_of P voters cands).getD i 0 ∈ Finset.range cands.length := by
    intro i hi
    rw [Finset.mem_range] at hi ⊢
    apply ballots_of_lt P voters cands h
    rw [List.getD_eq_getElem?_getD, List.getElem?_eq_getElem (by rw [hlen]; exact hi)]
    exact List.getElem_mem _
  have hmain := Finset.card_eq_sum_card_fiberwise hmem
  rw [Finset.card_range] at hmain
  simp only [supporters_of]
  exact hmain.symm

end Proto

/-- C5: For every candidate and every sequence of mutations, the
offspring returned by `mutate` has alpha in `[0, 1]` and ideology within
the variant's declared domain (`[-100, 100]` in the detailed variant,
`[0, 100]` in the prototype), including at the boundaries: mutating a
candidate with alpha 1 under an arbitrarily large positive draw never
yields alpha above 1, and symmetrically at alpha 0. -/
theorem claim_C5_thm :
    (∀ (c : Detailed.Candidate) (noise_alpha noise_ideo : ℚ) (m : Bool),
      0 ≤ (Detailed.Candidate.mutate c noise_alpha noise_ideo m).alpha ∧
      (Detailed.Candidate.mutate c noise_alpha noise_ideo m).alpha ≤ 1 ∧
      -100 ≤ (Detailed.Candidate.mutate c noise_alpha noise_ideo m).ideology ∧
      (Detailed.Candidate.mutate c noise_alpha noise_ideo m).ideology ≤ 100) ∧
    (∀ (c : Proto.Candidate) (noise_alpha noise_policy : ℚ) (m : Bool),
      0 ≤ (Proto.Candidate.mutate c noise_alpha noise_policy m).alpha ∧
      (Proto.Candidate.mutate c noise_alpha noise_policy m).alpha ≤ 1 ∧
      0 ≤ (Proto.Candidate.mutate c noise_alpha noise_policy m).policy ∧
      (Proto.Candidate.mutate c noise_alpha noise_policy m).policy ≤ 100) := by
  constructor
  · intro c nA nI m
    obtain ⟨ha0, ha1⟩ := clip_bounds (c.alpha + nA) 0 1 (by norm_num)
    obtain ⟨hi0, hi1⟩ :=
      clip_bounds (if m then c.ideology + nI else c.ideology) (-100) 100 (by norm_num)
    exact ⟨ha0, ha1, hi0, hi1⟩
  · intro c nA nP m
    obtain ⟨ha0, ha1⟩ := clip_bounds (c.alpha + nA) 0 1 (by norm_num)
    obtain ⟨hp0, hp1⟩ :=
      clip_bounds (if m then c.policy + nP else c.policy) 0 100 (by norm_num)
    exact ⟨ha0, ha1, hp0, hp1⟩

/-- A small concrete configuration used to instantiate the theorems on
concrete inputs: two voters, two candidates. -/
def scnP : Params :=
  { N_VOTERS := 2, RESOURCE_POOL := 1000, PUBLIC_GOODS_MUT_STD := 1/20,
    POLICY_MUT_STD := 2, THETA := 15, TAU := 3/5, PHI := 3/10,
    WINNING_COALITION_SIZE := 25 }

/-- Concrete detailed-variant voters. -/
def scnVotersD : List Detailed.Voter := [⟨0, RiskType.safe⟩, ⟨100, RiskType.risk⟩]

/-- Concrete detailed-variant candidates. -/
def scnCandsD : List Detailed.Candidate := [⟨10, 1/2⟩, ⟨90, 1/4⟩]

/-- Concrete prototype voters: both at ideology 0 and safe. -/
def scnVotersP : List Proto.Voter := [⟨0, RiskType.safe⟩, ⟨0, RiskType.safe⟩]

/-- Concrete prototype candidates: one far from the voters, one on top of
them. -/
def scnCandsP : List Proto.Candidate := [⟨100, 1/2, ∅, ∅⟩, ⟨0, 1/2, ∅, ∅⟩]

/-- Identity stand-in for the supporter shuffle. -/
def scnShuffle : ℕ → List ℕ → List ℕ := fun _ l => l

/-- Concrete noise stream: alpha draw 0, ideology draw 7. -/
def scnNoise : ℕ → ℚ × ℚ := fun _ => (0, 7)

/-- C4: Under plurality-take-all (the detailed variant), for every
generation the winning candidate's record persists exactly into the next
generation: its slot still holds the same record (same ideology and
alpha), and every non-winner slot is overwritten by an independent
mutation draw from the winner. -/
theorem claim_C4_thm (P : Params) (voters : List Detailed.Voter)
    (cands : List Detailed.Candidate) (noise : ℕ → ℚ × ℚ) (h : cands ≠ []) :
    (Detailed.run_generation_detailed P voters cands noise).new_cands[
        (Detailed.run_generation_detailed P voters cands noise).winnerIdx]? =
      cands[(Detailed.run_generation_detailed P voters cands noise).winnerIdx]? ∧
    ∀ cid < cands.length, cid ≠ (Detailed.run_generation_detailed P voters cands noise).winnerIdx →
      (Detailed.run_generation_detailed P voters cands noise).new_cands[cid]? =
        some (Detailed.Candidate.mutate
          (cands.getD (Detailed.run_generation_detailed P voters cands noise).winnerIdx default)
          (noise cid).1 (noise cid).2 true) := by
  have hw := Detailed.winnerIdx_lt P voters cands noise h
  constructor
  · rw [Detailed.run_new_cands, List.getElem?_map, List.getElem?_range hw,
      getElem?_eq_some_getD cands _ default hw]
    simp
  · intro cid hcid hne
    rw [Detailed.run_new_cands, List.getElem?_map, List.getElem?_range hcid]
    simp [hne]

/-- C7: In every generation each voter casts exactly one ballot, for its
argmax-utility candidate, and the per-candidate tally (the vote-count
vector in the detailed variant, the supporter-set sizes in the prototype)
has length `N_CANDIDATES` and sums to exactly `N_VOTERS`.  Both variants
are covered. -/
theorem claim_C7_thm (P : Params)
    (voters : List Detailed.Voter) (cands : List Detailed.Candidate) (noise : ℕ → ℚ × ℚ)
    (votersP : List Proto.Voter) (candsP : List Proto.Candidate)
    (shuffle : ℕ → List ℕ → List ℕ) (noiseP : ℕ → ℚ × ℚ) (mp : Bool)
    (h : cands ≠ []) (hP : candsP ≠ [])
    (hv : voters.length = P.N_VOTERS) (hvP : votersP.length = P.N_VOTERS) :
    (Detailed.run_generation_detailed P voters cands noise).vote_info.length = P.N_VOTERS ∧
    (∀ info ∈ (Detailed.run_generation_detailed P voters cands noise).vote_info,
      info.ballot = argmaxIdx info.utilities) ∧
    (Detailed.run_generation_detailed P voters cands noise).counts.length = cands.length ∧
    (Detailed.run_generation_detailed P voters cands noise).counts.sum = P.N_VOTERS ∧
    (Proto.run_generation P votersP candsP shuffle noiseP mp).ballots =
      votersP.map (fun v => argmaxIdx (Proto.utils_list P candsP v)) ∧
    ((Proto.run_generation P votersP candsP shuffle noiseP mp).mid_cands.map
      (fun c => c.supporters.card)).length = candsP.length ∧
    ((Proto.run_generation P votersP candsP shuffle noiseP mp).mid_cands.map
      (fun c => c.supporters.card)).sum = P.N_VOTERS := by
  refine ⟨?_, ?_, ?_, ?_, ?_, ?_, ?_⟩
  · rw [Detailed.run_vote_info, ← hv]
    simp [Detailed.vote_info_of]
  · intro info hinfo
    rw [Detailed.run_vote_info] at hinfo
    simp only [Detailed.vote_info_of, List.mem_map, List.mem_range] at hinfo
    obtain ⟨vid, _, rfl⟩ := hinfo
    rfl
  · exact Detailed.counts_length P voters cands noise h
  · rw [Detailed.run_counts, bincount_sum _ _ (Detailed.ballots_lt P voters cands h), ← hv]
    simp [Detailed.vote_info_of]
  · exact Proto.run_ballots P votersP candsP shuffle noiseP mp
  · rw [Proto.run_mid_cands]
    simp [Proto.mid_cands_of]
  · rw [Proto.run_mid_cands, Proto.mid_cands_of, List.map_map, sum_map_range, ← hvP]
    have := Proto.supporters_card_sum P votersP candsP hP
    simpa [Function.comp] using this

/-- Witness for C4: the winner-persistence theorem applied to the
concrete two-by-two configuration. -/
theorem claim_C4_witness :
    (Detailed.run_generation_detailed scnP scnVotersD scnCandsD scnNoise).new_cands[
        (Detailed.run_generation_detailed scnP scnVotersD scnCandsD scnNoise).winnerIdx]? =
      scnCandsD[(Detailed.run_generation_detailed scnP scnVotersD scnCandsD scnNoise).winnerIdx]? :=
  (claim_C4_thm scnP scnVotersD scnCandsD scnNoise (by simp [scnCandsD])).1

/-- Witness for C7: the tally-invariant theorem applied to the concrete
two-by-two configuration: both variants tally exactly the two voters. -/
theorem claim_C7_witness :
    (Detailed.run_generation_detailed scnP scnVotersD scnCandsD scnNoise).vote_info.length = 2 ∧
    (Detailed.run_generation_detailed scnP scnVotersD scnCandsD scnNoise).counts.sum = 2 ∧
    ((Proto.run_generation scnP scnVotersP scnCandsP scnShuffle scnNoise true).mid_cands.map
      (fun c => c.supporters.card)).sum = 2 := by
  have h := claim_C7_thm scnP scnVotersD scnCandsD scnNoise scnVotersP scnCandsP scnShuffle
    scnNoise true (by simp [scnCandsD]) (by simp [scnCandsP]) rfl rfl
  exact ⟨h.1, h.2.2.2.1, h.2.2.2.2.2.2⟩

/-- C6: For every voter, candidate and coalition-probability estimate,
`inclusion` returns true if and only if the absolute ideological distance
between the voter and the candidate is at most THETA and the estimate is
at least the voter's risk-dependent threshold: TAU when the voter's risk
type is risk, PHI when it is safe.  Both variants are covered. -/
theorem claim_C6_thm (P : Params) :
    (∀ (v : Detailed.Voter) (coal_prob cand_ideo : ℚ),
      Detailed.Voter.inclusion P v coal_prob cand_ideo = true ↔
        (|v.ideology - cand_ideo| ≤ P.THETA ∧
          ((v.risk_type = RiskType.risk ∧ P.TAU ≤ coal_prob) ∨
            (v.risk_type = RiskType.safe ∧ P.PHI ≤ coal_prob)))) ∧
    (∀ (v : Proto.Voter) (c : Proto.Candidate) (coalition_prob : ℚ),
      Proto.Voter.inclusion P v c coalition_prob = true ↔
        (|v.ideology - c.policy| ≤ P.THETA ∧
          ((v.risk_type = RiskType.risk ∧ P.TAU ≤ coalition_prob) ∨
            (v.risk_type = RiskType.safe ∧ P.PHI ≤ coalition_prob)))) := by
  constructor
  · rintro ⟨vi, vr⟩ coal_prob cand_ideo
    cases vr <;>
      simp [Detailed.Voter.inclusion, Detailed.threshold, ge_iff_le]
  · rintro ⟨vi, vr⟩ c coalition_prob
    cases vr <;>
      simp [Proto.Voter.inclusion, ge_iff_le]

/-- The winning coalition built in step 2 of the prototype
`run_generation` only contains that candidate's supporters, as long as
the shuffle permutes its input. -/
theorem coalition_of_subset (P : Params) (shuffle : ℕ → List ℕ → List ℕ) (voters_len : ℕ)
    (ballots : List ℕ) (idx : ℕ)
    (hperm : List.Perm
      (shuffle idx ((Proto.supporters_of voters_len ballots idx).sort (· ≤ ·)))
      ((Proto.supporters_of voters_len ballots idx).sort (· ≤ ·))) :
    Proto.coalition_of P shuffle voters_len ballots idx ⊆
      Proto.supporters_of voters_len ballots idx := by
  intro x hx
  simp only [Proto.coalition_of, List.mem_toFinset] at hx
  have hx2 := List.take_subset _ _ hx
  have := hperm.mem_iff.mp hx2
  rwa [Finset.mem_sort] at this

/-- The coalition sizes of a prototype generation, written out per
candidate index. -/
theorem sizes_eq (P : Params) (voters : List Proto.Voter) (cands : List Proto.Candidate)
    (shuffle : ℕ → List ℕ → List ℕ) (noise : ℕ → ℚ × ℚ) (mp : Bool) :
    (Proto.run_generation P voters cands shuffle noise mp).coalition_sizes =
      (List.range cands.length).map (fun idx =>
        (Proto.coalition_of P shuffle voters.length (Proto.ballots_of P voters cands) idx).card) := by
  rw [Proto.run_coalition_sizes, Proto.run_mid_cands, Proto.mid_cands_of, List.map_map]
  rfl

/-- When the shuffle permutes its input, the winning coalition of step 2
has exactly `min (N_VOTERS / 2) |supporters|` members. -/
theorem coalition_of_card (P : Params) (shuffle : ℕ → List ℕ → List ℕ) (voters_len : ℕ)
    (ballots : List ℕ) (idx : ℕ)
    (hperm : List.Perm
      (shuffle idx ((Proto.supporters_of voters_len ballots idx).sort (· ≤ ·)))
      ((Proto.supporters_of voters_len ballots idx).sort (· ≤ ·))) :
    (Proto.coalition_of P shuffle voters_len ballots idx).card =
      min (P.N_VOTERS / 2) (Proto.supporters_of voters_len ballots idx).card := by
  have hnodup : (shuffle idx ((Proto.supporters_of voters_len ballots idx).sort (· ≤ ·))).Nodup :=
    hperm.nodup_iff.mpr (Finset.sort_nodup _ _)
  have htake := (List.take_sublist (P.N_VOTERS / 2) _).nodup hnodup
  rw [Proto.coalition_of, List.toFinset_card_of_nodup htake, List.length_take,
    hperm.length_eq, Finset.length_sort]

/-- With at least one voter, a nonempty candidate list, a quota of at
least one, and a permuting shuffle, the elected winner of a prototype
generation has a nonempty winning coalition. -/
theorem winner_coalition_card_pos (P : Params) (voters : List Proto.Voter)
    (cands : List Proto.Candidate) (shuffle : ℕ → List ℕ → List ℕ) (noise : ℕ → ℚ × ℚ)
    (mp : Bool) (h : cands ≠ []) (hvne : voters ≠ []) (hq : 1 ≤ P.N_VOTERS / 2)
    (hperm : ∀ i l, List.Perm (shuffle i l) l) :
    1 ≤ (Proto.run_generation P voters cands shuffle noise mp).winner.winning_coalition.card := by
  have hsum := Proto.supporters_card_sum P voters cands h
  have hvlen : 0 < voters.length := List.length_pos.mpr hvne
  have hex : ∃ idx ∈ Finset.range cands.length,
      1 ≤ (Proto.supporters_of voters.length (Proto.ballots_of P voters cands) idx).card := by
    by_contra hcon
    push_neg at hcon
    have hzero : ∑ idx in Finset.range cands.length,
        (Proto.supporters_of voters.length (Proto.ballots_of P voters cands) idx).card = 0 :=
      Finset.sum_eq_zero (fun idx hidx => by have := hcon idx hidx; omega)
    rw [hsum] at hzero
    omega
  obtain ⟨idx, hidxmem, hidxpos⟩ := hex
  have hszeq := sizes_eq P voters cands shuffle noise mp
  have hlen_sizes :
      (Proto.run_generation P voters cands shuffle noise mp).coalition_sizes.length =
        cands.length := by
    rw [hszeq]; simp
  have hmem : min (P.N_VOTERS / 2)
      (Proto.supporters_of voters.length (Proto.ballots_of P voters cands) idx).card ∈
        (Proto.run_generation P voters cands shuffle noise mp).coalition_sizes := by
    rw [hszeq]
    exact List.mem_map.mpr ⟨idx, List.mem_range.mpr (Finset.mem_range.mp hidxmem),
      (coalition_of_card P shuffle voters.length _ idx (hperm idx _))⟩
  have hne_sizes : (Proto.run_generation P voters cands shuffle noise mp).coalition_sizes ≠ [] := by
    intro h0
    rw [h0] at hlen_sizes
    exact absurd hlen_sizes.symm (by simpa using h)
  obtain ⟨v, hv_get, hv_max⟩ := argmaxIdx_spec _ hne_sizes
  have hv1 : 1 ≤ v := by
    have hmin : 1 ≤ min (P.N_VOTERS / 2)
        (Proto.supporters_of voters.length (Proto.ballots_of P voters cands) idx).card :=
      le_min hq hidxpos
    exact le_trans hmin (hv_max _ hmem)
  rw [Proto.run_winner, Proto.run_winnerIdx_proto]
  set w := argmaxIdx ((Proto.run_generation P voters cands shuffle noise mp).coalition_sizes)
    with hw
  rw [List.get?_eq_getElem?, Proto.run_coalition_sizes, List.getElem?_map] at hv_get
  obtain ⟨m, hmc, hcv⟩ := Option.map_eq_some'.mp hv_get
  have hmeq : (Proto.run_generation P voters cands shuffle noise mp).mid_cands.getD
      w default = m := by
    rw [List.getD_eq_getElem?_getD, hmc]; rfl
  rw [hmeq]
  omega

theorem riskType_eq_false : (RiskType.safe = RiskType.risk) = False := by
  simp

/-- Concrete evaluation: in the prototype scenario both voters vote for
candidate 1, the candidate at their own ideology. -/
theorem scnPr_ballots : Proto.ballots_of scnP scnVotersP scnCandsP = [1, 1] := by
  norm_num [Proto.ballots_of, Proto.utils_list, Proto.Voter.utility, Proto.Voter.inclusion,
    Proto.coalition_prob_of, scnP, scnVotersP, scnCandsP, argmaxIdx, argmaxGo, riskType_eq_false]

/-- Concrete evaluation: candidate 0 has no supporters. -/
theorem scnPr_sup0 : Proto.supporters_of 2 [1, 1] 0 = ∅ := by decide

/-- Concrete evaluation: candidate 1 is supported by both voters. -/
theorem scnPr_sup1 : Proto.supporters_of 2 [1, 1] 1 = {0, 1} := by decide

/-- Concrete evaluation: candidate 0's winning coalition is empty. -/
theorem scnPr_coal0 : Proto.coalition_of scnP scnShuffle 2 [1, 1] 0 = ∅ := by
  rw [Proto.coalition_of, scnPr_sup0]
  simp [scnShuffle, scnP]

/-- Concrete evaluation: candidate 1's winning coalition is the first
voter (quota 1 out of two supporters). -/
theorem scnPr_coal1 : Proto.coalition_of scnP scnShuffle 2 [1, 1] 1 = {0} := by
  rw [Proto.coalition_of, scnPr_sup1]
  rw [show ({0, 1} : Finset ℕ).sort (· ≤ ·) = [0, 1] by
    simp [Finset.sort_insert, Finset.sort_singleton]]
  simp [scnShuffle, scnP, List.take_succ_cons]

/-- Concrete evaluation: the coalition sizes of the prototype scenario. -/
theorem scnPr_sizes :
    (Proto.run_generation scnP scnVotersP scnCandsP scnShuffle scnNoise true).coalition_sizes =
      [0, 1] := by
  rw [sizes_eq]
  simp only [scnPr_ballots, show scnVotersP.length = 2 from rfl,
    show scnCandsP.length = 2 from rfl, List.range_succ, List.range_zero]
  simp [scnPr_coal0, scnPr_coal1]

/-- Concrete evaluation: candidate 1 wins the prototype scenario. -/
theorem scnPr_widx :
    (Proto.run_generation scnP scnVotersP scnCandsP scnShuffle scnNoise true).winnerIdx = 1 := by
  rw [Proto.run_winnerIdx_proto, scnPr_sizes]
  decide

/-- Concrete evaluation: the winning record of the prototype scenario. -/
theorem scnPr_winner :
    (Proto.run_generation scnP scnVotersP scnCandsP scnShuffle scnNoise true).winner =
      ⟨0, 1/2, {0, 1}, {0}⟩ := by
  rw [Proto.run_winner, scnPr_widx, Proto.run_mid_cands, Proto.mid_cands_of]
  simp only [scnPr_ballots, show scnVotersP.length = 2 from rfl,
    show scnCandsP.length = 2 from rfl, List.range_succ, List.range_zero]
  simp [List.getD_cons_succ, List.getD_cons_zero, scnPr_sup1, scnPr_coal1, scnCandsP]

/-- C3 (amended): in the prototype replacement step the winner's record
is preserved unchanged but moved to index 0 of the next generation's
population, regardless of the index at which it won; every other index
`k + 1` holds a freshly mutated copy of the winner. -/
theorem claim_C3_thm (P : Params) (voters : List Proto.Voter) (cands : List Proto.Candidate)
    (shuffle : ℕ → List ℕ → List ℕ) (noise : ℕ → ℚ × ℚ) (mp : Bool) (h : cands ≠ []) :
    (Proto.run_generation P voters cands shuffle noise mp).new_cands.length = cands.length ∧
    (Proto.run_generation P voters cands shuffle noise mp).new_cands[0]? =
      some (Proto.run_generation P voters cands shuffle noise mp).winner ∧
    (Proto.run_generation P voters cands shuffle noise mp).winner =
      (Proto.run_generation P voters cands shuffle noise mp).mid_cands.getD
        (Proto.run_generation P voters cands shuffle noise mp).winnerIdx default ∧
    ∀ k < cands.length - 1,
      (Proto.run_generation P voters cands shuffle noise mp).new_cands[k + 1]? =
        some (Proto.Candidate.mutate
          (Proto.run_generation P voters cands shuffle noise mp).winner
          (noise k).1 (noise k).2 mp) := by
  refine ⟨?_, ?_, Proto.run_winner P voters cands shuffle noise mp, ?_⟩
  · rw [Proto.run_new_cands_proto]
    have : 0 < cands.length := List.length_pos.mpr h
    simp
    omega
  · rw [Proto.run_new_cands_proto]
    exact List.getElem?_cons_zero
  · intro k hk
    rw [Proto.run_new_cands_proto, List.getElem?_cons_succ, List.getElem?_map,
      List.getElem?_range hk]
    rfl

/-- Counterexample to C3 as stated: in the concrete prototype scenario
candidate 1 wins, but slot 1 of the next generation's population does
not hold the winner's record (the winner was moved to slot 0 and slot 1
holds a mutated copy). -/
theorem claim_C3_counter :
    (Proto.run_generation scnP scnVotersP scnCandsP scnShuffle scnNoise true).winnerIdx = 1 ∧
    (Proto.run_generation scnP scnVotersP scnCandsP scnShuffle scnNoise true).new_cands[1]? ≠
      some (Proto.run_generation scnP scnVotersP scnCandsP scnShuffle scnNoise true).winner := by
  refine ⟨scnPr_widx, ?_⟩
  rw [Proto.run_new_cands_proto]
  simp only [List.getElem?_cons_succ, show scnCandsP.length = 2 from rfl, List.range_succ,
    List.range_zero, List.nil_append, List.map_cons, List.map_nil, List.getElem?_cons_zero,
    scnPr_winner, Proto.Candidate.mutate, Option.some.injEq, Proto.Candidate.mk.injEq]
  intro hcontra
  have h2 := Option.some.inj hcontra
  have h3 := congrArg Proto.Candidate.supporters h2
  exact absurd h3 (by decide)

/-- Witness for the amended C3 in the concrete prototype scenario. -/
theorem claim_C3_witness :
    (Proto.run_generation scnP scnVotersP scnCandsP scnShuffle scnNoise true).new_cands.length =
      2 ∧
    (Proto.run_generation scnP scnVotersP scnCandsP scnShuffle scnNoise true).new_cands[0]? =
      some (Proto.run_generation scnP scnVotersP scnCandsP scnShuffle scnNoise true).winner ∧
    (Proto.run_generation scnP scnVotersP scnCandsP scnShuffle scnNoise true).new_cands[1]? =
      some (Proto.Candidate.mutate
        (Proto.run_generation scnP scnVotersP scnCandsP scnShuffle scnNoise true).winner
        (scnNoise 0).1 (scnNoise 0).2 true) := by
  have h := claim_C3_thm scnP scnVotersP scnCandsP scnShuffle scnNoise true (by simp [scnCandsP])
  exact ⟨h.1, h.2.1, h.2.2.2 0 (by decide)⟩

/-- C10: In the prototype variant every candidate produced by `mutate`
starts with empty `supporters` and `winning_coalition` sets, so in the
generation after a replacement every non-winner slot's
coalition-probability estimate is the `1/N_VOTERS` fallback, while only
the carried-over winner (slot 0 of the new population) has an estimate
derived from the size of its previous winning coalition, which is
nonempty whenever there is at least one voter and the quota is at least
one. -/
theorem claim_C10_thm (P : Params) (voters : List Proto.Voter) (cands : List Proto.Candidate)
    (shuffle : ℕ → List ℕ → List ℕ) (noise : ℕ → ℚ × ℚ) (mp : Bool)
    (h : cands ≠ []) (hvne : voters ≠ []) (hq : 1 ≤ P.N_VOTERS / 2)
    (hperm : ∀ i l, List.Perm (shuffle i l) l) :
    (∀ (c : Proto.Candidate) (noise_alpha noise_policy : ℚ) (m : Bool),
      (Proto.Candidate.mutate c noise_alpha noise_policy m).supporters = ∅ ∧
      (Proto.Candidate.mutate c noise_alpha noise_policy m).winning_coalition = ∅) ∧
    (∀ k < cands.length - 1,
      Proto.coalition_prob_of P
        ((Proto.run_generation P voters cands shuffle noise mp).new_cands.getD (k + 1) default) =
          1 / (P.N_VOTERS : ℚ)) ∧
    (Proto.run_generation P voters cands shuffle noise mp).new_cands.getD 0 default =
      (Proto.run_generation P voters cands shuffle noise mp).winner ∧
    (Proto.run_generation P voters cands shuffle noise mp).winner.winning_coalition.Nonempty ∧
    Proto.coalition_prob_of P
        ((Proto.run_generation P voters cands shuffle noise mp).new_cands.getD 0 default) =
      ((Proto.run_generation P voters cands shuffle noise mp).winner.winning_coalition.card : ℚ) /
        (P.N_VOTERS : ℚ) := by
  have hpos := winner_coalition_card_pos P voters cands shuffle noise mp h hvne hq hperm
  have hnonempty :
      (Proto.run_generation P voters cands shuffle noise mp).winner.winning_coalition.Nonempty :=
    Finset.card_pos.mp (by omega)
  have h0 : (Proto.run_generation P voters cands shuffle noise mp).new_cands.getD 0 default =
      (Proto.run_generation P voters cands shuffle noise mp).winner := by
    rw [Proto.run_new_cands_proto]
    exact List.getD_cons_zero
  refine ⟨fun c nA nP m => ⟨rfl, rfl⟩, ?_, h0, hnonempty, ?_⟩
  · intro k hk
    have hk1 : (Proto.run_generation P voters cands shuffle noise mp).new_cands.getD (k + 1)
        default = Proto.Candidate.mutate
          (Proto.run_generation P voters cands shuffle noise mp).winner
          (noise k).1 (noise k).2 mp := by
      rw [Proto.run_new_cands_proto, List.getD_cons_succ, List.getD_eq_getElem?_getD,
        List.getElem?_map, List.getElem?_range hk]
      rfl
    rw [hk1]
    simp [Proto.coalition_prob_of, Proto.Candidate.mutate]
  · rw [h0]
    simp [Proto.coalition_prob_of, hnonempty]

/-- Witness for C10: the theorem applied to the concrete prototype
scenario, with the identity shuffle. -/
theorem claim_C10_witness :
    ((Proto.Candidate.mutate ⟨3, 1/2, {0}, {0}⟩ 1 2 true).supporters = ∅ ∧
      (Proto.Candidate.mutate ⟨3, 1/2, {0}, {0}⟩ 1 2 true).winning_coalition = ∅) ∧
    Proto.coalition_prob_of scnP
      ((Proto.run_generation scnP scnVotersP scnCandsP scnShuffle scnNoise true).new_cands.getD 1
        default) = 1 / (scnP.N_VOTERS : ℚ) ∧
    (Proto.run_generation scnP scnVotersP scnCandsP scnShuffle scnNoise true).new_cands.getD 0
        default =
      (Proto.run_generation scnP scnVotersP scnCandsP scnShuffle scnNoise true).winner ∧
    (Proto.run_generation scnP scnVotersP scnCandsP scnShuffle scnNoise
        true).winner.winning_coalition.Nonempty ∧
    Proto.coalition_prob_of scnP
        ((Proto.run_generation scnP scnVotersP scnCandsP scnShuffle scnNoise true).new_cands.getD 0
          default) =
      (((Proto.run_generation scnP scnVotersP scnCandsP scnShuffle scnNoise
          true).winner.winning_coalition.card : ℚ)) / (scnP.N_VOTERS : ℚ) := by
  have h := claim_C10_thm scnP scnVotersP scnCandsP scnShuffle scnNoise true
    (by simp [scnCandsP]) (by simp [scnVotersP]) (by decide) (fun i l => List.Perm.refl l)
  exact ⟨h.1 ⟨3, 1/2, {0}, {0}⟩ 1 2 true, h.2.1 0 (by decide), h.2.2.1, h.2.2.2.1, h.2.2.2.2⟩

/-- Concrete evaluation: the ballots of the detailed scenario (voter 0
prefers the distant candidate 1, voter 1 the distant candidate 0 — the
squared ideology term enters the utility with positive sign). -/
theorem scnD_ballots :
    (Detailed.vote_info_of scnP scnVotersD scnCandsD).map Detailed.VoteInfo.ballot = [1, 0] := by
  norm_num [Detailed.vote_info_of, Detailed.utils_list, Detailed.Voter.utility,
    Detailed.Voter.inclusion, Detailed.threshold, Detailed.coal_prob_fixed,
    Detailed.included_list, scnP, scnVotersD, scnCandsD, argmaxIdx, argmaxGo,
    riskType_eq_false, List.range_succ]

/-- Concrete evaluation: the vote counts of the detailed scenario. -/
theorem scnD_counts :
    (Detailed.run_generation_detailed scnP scnVotersD scnCandsD scnNoise).counts = [1, 1] := by
  rw [Detailed.run_counts, scnD_ballots]
  decide

/-- Concrete evaluation: candidate 0 wins the detailed scenario (tie at
one vote each, first index taken). -/
theorem scnD_widx :
    (Detailed.run_generation_detailed scnP scnVotersD scnCandsD scnNoise).winnerIdx = 0 := by
  rw [Detailed.run_winnerIdx, scnD_counts]
  decide

/-- C8: Under the observed-support policy (prototype variant), a
candidate's coalition-probability estimate equals the size of its
winning coalition (a subset of its supporters) divided by `N_VOTERS`,
and a candidate with no prior supporters (hence an empty coalition)
falls back to exactly `1/N_VOTERS` instead of dividing by zero. -/
theorem claim_C8_thm (P : Params) (c : Proto.Candidate) :
    (c.winning_coalition.Nonempty →
      Proto.coalition_prob_of P c = (c.winning_coalition.card : ℚ) / (P.N_VOTERS : ℚ)) ∧
    (c.supporters = ∅ → c.winning_coalition ⊆ c.supporters →
      Proto.coalition_prob_of P c = 1 / (P.N_VOTERS : ℚ)) := by
  constructor
  · intro hne
    simp [Proto.coalition_prob_of, hne]
  · intro hsup hsub
    have hempty : c.winning_coalition = ∅ := by
      rw [hsup] at hsub
      exact Finset.subset_empty.mp hsub
    simp [Proto.coalition_prob_of, hempty]

/-- Witness for C8: the estimate theorem applied to a candidate with a
two-voter coalition and to a freshly constructed candidate with no
supporters. -/
theorem claim_C8_witness :
    Proto.coalition_prob_of scnP ⟨0, 0, {0, 1}, {0, 1}⟩ =
      ((({0, 1} : Finset ℕ).card : ℚ) / (scnP.N_VOTERS : ℚ)) ∧
    Proto.coalition_prob_of scnP ⟨5, 1, ∅, ∅⟩ = 1 / (scnP.N_VOTERS : ℚ) :=
  ⟨(claim_C8_thm scnP ⟨0, 0, {0, 1}, {0, 1}⟩).1 (by decide),
   (claim_C8_thm scnP ⟨5, 1, ∅, ∅⟩).2 rfl (Finset.empty_subset _)⟩


/-- Helper: the replacement step preserves the population size in the
detailed variant. -/
theorem new_cands_length_detailed (P : Params) (voters : List Detailed.Voter)
    (cands : List Detailed.Candidate) (noise : ℕ → ℚ × ℚ) :
    (Detailed.run_generation_detailed P voters cands noise).new_cands.length = cands.length := by
  rw [Detailed.run_new_cands]
  simp

/-- C9: In the detailed variant the per-candidate rows emitted for
generation `gen` report the post-replacement population: every
non-winner row carries the ideology and alpha of the freshly mutated
next-generation candidate (not of the candidate that produced the
recorded utilities), only the winner's row matches the state the voters
evaluated, and every per-voter row pairs the pre-replacement utilities
and inclusion flags with the post-replacement per-candidate columns. -/
theorem claim_C9_thm (P : Params) (voters : List Detailed.Voter)
    (cands : List Detailed.Candidate) (noise : ℕ → ℚ × ℚ) (gen : ℕ)
    (cid : ℕ) (hcid : cid < cands.length)
    (hne : cid ≠ (Detailed.run_generation_detailed P voters cands noise).winnerIdx)
    (hw : (Detailed.run_generation_detailed P voters cands noise).winnerIdx < cands.length) :
    (Detailed.candidate_records gen (Detailed.run_generation_detailed P voters cands noise))[cid]? =
      some { generation := gen
             candidate_id := cid
             ideology := (Detailed.Candidate.mutate
               (cands.getD (Detailed.run_generation_detailed P voters cands noise).winnerIdx
                 default) (noise cid).1 (noise cid).2 true).ideology
             alpha := (Detailed.Candidate.mutate
               (cands.getD (Detailed.run_generation_detailed P voters cands noise).winnerIdx
                 default) (noise cid).1 (noise cid).2 true).alpha
             is_winner := false } ∧
    (Detailed.candidate_records gen (Detailed.run_generation_detailed P voters cands noise))[
        (Detailed.run_generation_detailed P voters cands noise).winnerIdx]? =
      some { generation := gen
             candidate_id := (Detailed.run_generation_detailed P voters cands noise).winnerIdx
             ideology := (cands.getD
               (Detailed.run_generation_detailed P voters cands noise).winnerIdx default).ideology
             alpha := (cands.getD
               (Detailed.run_generation_detailed P voters cands noise).winnerIdx default).alpha
             is_winner := true } ∧
    ∀ vid < voters.length,
      (Detailed.voter_records gen voters
          (Detailed.run_generation_detailed P voters cands noise))[vid]? =
        some { generation := gen
               voter_id := vid
               risk_type := (voters.getD vid default).risk_type
               voted_for := argmaxIdx (Detailed.utils_list P cands (voters.getD vid default))
               voter_ideology := (voters.getD vid default).ideology
               cand_ideology :=
                 (Detailed.run_generation_detailed P voters cands noise).new_cands.map
                   Detailed.Candidate.ideology
               cand_alpha :=
                 (Detailed.run_generation_detailed P voters cands noise).new_cands.map
                   Detailed.Candidate.alpha
               cand_included := Detailed.included_list P cands (voters.getD vid default)
               cand_utility := Detailed.utils_list P cands (voters.getD vid default) } := by
  have hlen := new_cands_length_detailed P voters cands noise
  refine ⟨?_, ?_, ?_⟩
  · have hcid' : cid < (Detailed.run_generation_detailed P voters cands noise).new_cands.length := by
      rw [hlen]; exact hcid
    have hnc : (Detailed.run_generation_detailed P voters cands noise).new_cands[cid]? =
        some (Detailed.Candidate.mutate
          (cands.getD (Detailed.run_generation_detailed P voters cands noise).winnerIdx default)
          (noise cid).1 (noise cid).2 true) := by
      rw [Detailed.run_new_cands, List.getElem?_map, List.getElem?_range hcid]
      simp [hne]
    have hgd : (Detailed.run_generation_detailed P voters cands noise).new_cands.getD cid
        default = Detailed.Candidate.mutate
          (cands.getD (Detailed.run_generation_detailed P voters cands noise).winnerIdx default)
          (noise cid).1 (noise cid).2 true := by
      rw [List.getD_eq_getElem?_getD, hnc]
      rfl
    simp only [Detailed.candidate_records, List.getElem?_map, List.getElem?_range hcid',
      Option.map_some', Option.map_some]
    rw [hgd]
    simp [hne]
  · have hw' : (Detailed.run_generation_detailed P voters cands noise).winnerIdx <
        (Detailed.run_generation_detailed P voters cands noise).new_cands.length := by
      rw [hlen]; exact hw
    have hnc : (Detailed.run_generation_detailed P voters cands noise).new_cands[
        (Detailed.run_generation_detailed P voters cands noise).winnerIdx]? =
        some (cands.getD (Detailed.run_generation_detailed P voters cands noise).winnerIdx
          default) := by
      rw [Detailed.run_new_cands, List.getElem?_map, List.getElem?_range hw]
      simp
    have hgd : (Detailed.run_generation_detailed P voters cands noise).new_cands.getD
        (Detailed.run_generation_detailed P voters cands noise).winnerIdx default =
        cands.getD (Detailed.run_generation_detailed P voters cands noise).winnerIdx default := by
      rw [List.getD_eq_getElem?_getD, hnc]
      rfl
    simp only [Detailed.candidate_records, List.getElem?_map, List.getElem?_range hw',
      Option.map_some', Option.map_some]
    rw [hgd]
    simp
  · intro vid hvid
    simp only [Detailed.voter_records, Detailed.run_vote_info, Detailed.vote_info_of,
      List.map_map, List.getElem?_map, List.getElem?_range hvid, Option.map_some', Option.map_some]
    rfl


/-- Witness for C9: the recording theorem applied to the concrete
detailed scenario, where candidate 0 wins; row 1 of the candidate
records holds the mutated next-generation candidate. -/
theorem claim_C9_witness :
    (Detailed.candidate_records 0
        (Detailed.run_generation_detailed scnP scnVotersD scnCandsD scnNoise))[1]? =
      some { generation := 0
             candidate_id := 1
             ideology := (Detailed.Candidate.mutate
               (scnCandsD.getD (Detailed.run_generation_detailed scnP scnVotersD scnCandsD
                 scnNoise).winnerIdx default) (scnNoise 1).1 (scnNoise 1).2 true).ideology
             alpha := (Detailed.Candidate.mutate
               (scnCandsD.getD (Detailed.run_generation_detailed scnP scnVotersD scnCandsD
                 scnNoise).winnerIdx default) (scnNoise 1).1 (scnNoise 1).2 true).alpha
             is_winner := false } ∧
    (Detailed.voter_records 0 scnVotersD
        (Detailed.run_generation_detailed scnP scnVotersD scnCandsD scnNoise))[0]? =
      some { generation := 0
             voter_id := 0
             risk_type := (scnVotersD.getD 0 default).risk_type
             voted_for := argmaxIdx (Detailed.utils_list scnP scnCandsD (scnVotersD.getD 0 default))
             voter_ideology := (scnVotersD.getD 0 default).ideology
             cand_ideology :=
               (Detailed.run_generation_detailed scnP scnVotersD scnCandsD scnNoise).new_cands.map
                 Detailed.Candidate.ideology
             cand_alpha :=
               (Detailed.run_generation_detailed scnP scnVotersD scnCandsD scnNoise).new_cands.map
                 Detailed.Candidate.alpha
             cand_included := Detailed.included_list scnP scnCandsD (scnVotersD.getD 0 default)
             cand_utility := Detailed.utils_list scnP scnCandsD (scnVotersD.getD 0 default) } := by
  have h := claim_C9_thm scnP scnVotersD scnCandsD scnNoise 0 1 (by decide)
    (by rw [scnD_widx]; decide) (by rw [scnD_widx]; decide)
  exact ⟨h.1, h.2.2 0 (by decide)⟩


/-- The degenerate scenario of C1: four voters, two candidates, THETA
large enough that every distance qualifies, TAU and PHI zero so every
estimate qualifies. -/
def scn1P : Params :=
  { N_VOTERS := 4, RESOURCE_POOL := 1000, PUBLIC_GOODS_MUT_STD := 1/20,
    POLICY_MUT_STD := 2, THETA := 100, TAU := 0, PHI := 0,
    WINNING_COALITION_SIZE := 25 }

/-- Four voters, all at ideology 0 and safe. -/
def scn1Voters : List Detailed.Voter :=
  [⟨0, RiskType.safe⟩, ⟨0, RiskType.safe⟩, ⟨0, RiskType.safe⟩, ⟨0, RiskType.safe⟩]

/-- Two candidates with equal alpha, one at the voters' ideology and one
far away. -/
def scn1Cands : List Detailed.Candidate := [⟨0, 1/2⟩, ⟨50, 1/2⟩]

/-- Concrete evaluation: in the degenerate scenario every voter ballots
for the distant candidate 1 (the squared-distance term is added with a
positive sign). -/
theorem scn1_ballots :
    (Detailed.vote_info_of scn1P scn1Voters scn1Cands).map Detailed.VoteInfo.ballot =
      [1, 1, 1, 1] := by
  norm_num [Detailed.vote_info_of, Detailed.utils_list, Detailed.Voter.utility,
    Detailed.Voter.inclusion, Detailed.threshold, Detailed.coal_prob_fixed,
    Detailed.included_list, scn1P, scn1Voters, scn1Cands, argmaxIdx, argmaxGo,
    riskType_eq_false, List.range_succ]

/-- Concrete evaluation: candidate 1 wins the degenerate scenario. -/
theorem scn1_widx :
    (Detailed.run_generation_detailed scn1P scn1Voters scn1Cands scnNoise).winnerIdx = 1 := by
  rw [Detailed.run_winnerIdx, Detailed.run_counts, scn1_ballots]
  decide

/-- Counterexample to C1 as stated: in the degenerate scenario the
winner (candidate 1) does not minimize the mean squared ideological
distance to the voter population — candidate 0's mean squared distance
is strictly smaller. -/
theorem claim_C1_counter :
    (Detailed.run_generation_detailed scn1P scn1Voters scn1Cands scnNoise).winnerIdx = 1 ∧
    Detailed.meanSqDist scn1Voters (scn1Cands.getD 0 default) <
      Detailed.meanSqDist scn1Voters (scn1Cands.getD 1 default) := by
  refine ⟨scn1_widx, ?_⟩
  norm_num [Detailed.meanSqDist, scn1Voters, scn1Cands]

/-- C1 (amended): in the degenerate regime (every distance within THETA
and both thresholds below the fixed estimate), every voter's utility for
each candidate reduces to the squared ideological distance plus a
per-candidate constant determined by alpha, and the generation's winner
is the plurality winner of the argmax-utility ballots; because the
distance term enters with a positive sign it is not the minimizer of the
mean squared ideological distance. -/
theorem claim_C1_thm (P : Params) (voters : List Detailed.Voter)
    (cands : List Detailed.Candidate) (noise : ℕ → ℚ × ℚ)
    (hincl : ∀ v ∈ voters, ∀ c ∈ cands, |v.ideology - c.ideology| ≤ P.THETA)
    (hTAU : P.TAU ≤ Detailed.coal_prob_fixed P) (hPHI : P.PHI ≤ Detailed.coal_prob_fixed P) :
    (∀ v ∈ voters, Detailed.utils_list P cands v = cands.map (fun c =>
      (v.ideology - c.ideology) ^ 2 + c.alpha * (P.RESOURCE_POOL / (P.N_VOTERS : ℚ)) +
        (1 - c.alpha) * (P.RESOURCE_POOL / P.WINNING_COALITION_SIZE))) ∧
    (Detailed.run_generation_detailed P voters cands noise).winnerIdx =
      argmaxIdx (bincount
        ((Detailed.run_generation_detailed P voters cands noise).vote_info.map
          Detailed.VoteInfo.ballot) cands.length) := by
  constructor
  · intro v hv
    rw [Detailed.utils_list]
    refine List.map_congr_left ?_
    intro c hc
    have hflag : Detailed.Voter.inclusion P v (Detailed.coal_prob_fixed P) c.ideology = true := by
      rw [Detailed.Voter.inclusion]
      simp only [Bool.and_eq_true, decide_eq_true_eq, ge_iff_le]
      refine ⟨hincl v hv c hc, ?_⟩
      rw [Detailed.threshold]
      split_ifs
      exacts [hTAU, hPHI]
    rw [hflag, Detailed.Voter.utility]
    simp
  · rfl

/-- Witness for the amended C1 in the degenerate scenario. -/
theorem claim_C1_witness :
    Detailed.utils_list scn1P scn1Cands ⟨0, RiskType.safe⟩ = scn1Cands.map (fun c =>
      ((0 : ℚ) - c.ideology) ^ 2 + c.alpha * (scn1P.RESOURCE_POOL / (scn1P.N_VOTERS : ℚ)) +
        (1 - c.alpha) * (scn1P.RESOURCE_POOL / scn1P.WINNING_COALITION_SIZE)) ∧
    (Detailed.run_generation_detailed scn1P scn1Voters scn1Cands scnNoise).winnerIdx =
      argmaxIdx (bincount
        ((Detailed.run_generation_detailed scn1P scn1Voters scn1Cands scnNoise).vote_info.map
          Detailed.VoteInfo.ballot) scn1Cands.length) := by
  have h := claim_C1_thm scn1P scn1Voters scn1Cands scnNoise
    (by
      intro v hv c hc
      simp only [scn1Voters, List.mem_cons, List.not_mem_nil, or_false] at hv
      simp only [scn1Cands, List.mem_cons, List.not_mem_nil, or_false] at hc
      rcases hv with rfl | rfl | rfl | rfl <;> rcases hc with rfl | rfl <;> norm_num [scn1P])
    (by norm_num [Detailed.coal_prob_fixed, scn1P])
    (by norm_num [Detailed.coal_prob_fixed, scn1P])
  exact ⟨h.1 ⟨0, RiskType.safe⟩ (by simp [scn1Voters]), h.2⟩

/-- A configuration violating two of the spec's fatal preconditions:
THETA negative and target coalition size larger than N_VOTERS. -/
def scn2P : Params :=
  { N_VOTERS := 2, RESOURCE_POOL := 1000, PUBLIC_GOODS_MUT_STD := 1/20,
    POLICY_MUT_STD := 2, THETA := -1, TAU := 3/5, PHI := 3/10,
    WINNING_COALITION_SIZE := 50 }

/-- C2 (amended): the code performs no configuration validation; a run
of the detailed generation completes without an abort exactly when the
candidate list is nonempty (else the ballot argmax raises on an empty
sequence), the voter population is empty or N_VOTERS is nonzero (else
the per-pair estimate `WINNING_COALITION_SIZE / N_VOTERS` divides by
zero), the coalition size is nonzero or no voter's inclusion flag ever
comes out true (else the private-goods payoff
`RESOURCE_POOL / WINNING_COALITION_SIZE` divides by zero), and the
mutation standard deviations are nonnegative or no loser is mutated
(else numpy rejects the negative scale).  Negative THETA and a target
coalition size above N_VOTERS never abort, and no selection-rule
configuration exists. -/
theorem claim_C2_thm (P : Params) (voters : List Detailed.Voter)
    (cands : List Detailed.Candidate) (noise : ℕ → ℚ × ℚ) :
    (∃ g, Detailed.run_generation_detailedE P voters cands noise = Except.ok g) ↔
      (cands ≠ [] ∧ (voters = [] ∨ P.N_VOTERS ≠ 0) ∧
        (P.WINNING_COALITION_SIZE ≠ 0 ∨ Detailed.some_included P voters cands = false) ∧
        ((0 ≤ P.PUBLIC_GOODS_MUT_STD ∧ 0 ≤ P.POLICY_MUT_STD) ∨ cands.length < 2)) := by
  rw [Detailed.run_generation_detailedE]
  split_ifs with h1 h2 h3 h4
  · simp only [List.length_eq_zero] at h1
    simp [h1]
  · constructor
    · rintro ⟨g, hg⟩
      exact absurd hg (by simp)
    · rintro ⟨hc, hvn, -, -⟩
      exfalso
      rcases hvn with hv | hn
      · exact h2.1 (by simp [hv])
      · exact hn h2.2
  · constructor
    · rintro ⟨g, hg⟩
      exact absurd hg (by simp)
    · rintro ⟨-, -, hw, -⟩
      exfalso
      rcases hw with hW | hinc
      · exact hW h3.1
      · rw [h3.2] at hinc
        exact absurd hinc (by simp)
  · constructor
    · rintro ⟨g, hg⟩
      exact absurd hg (by simp)
    · rintro ⟨hc, hvn, -, hstd⟩
      exfalso
      rcases hstd with ⟨ha, hb⟩ | hlt
      · rcases h4.1 with hlt' | hlt'
        · exact absurd hlt' (not_lt.mpr ha)
        · exact absurd hlt' (not_lt.mpr hb)
      · have := h4.2
        omega
  · constructor
    · intro _
      refine ⟨fun hnil => h1 (by simp [hnil]), ?_, ?_, ?_⟩
      · by_cases hv : voters = []
        · exact Or.inl hv
        · refine Or.inr (fun hn0 => h2 ⟨?_, hn0⟩)
          exact fun h0 => hv (List.length_eq_zero.mp h0)
      · by_cases hW : P.WINNING_COALITION_SIZE = 0
        · refine Or.inr ?_
          have hnt : ¬Detailed.some_included P voters cands = true :=
            fun ht => h3 ⟨hW, ht⟩
          exact Bool.eq_false_iff.mpr hnt
        · exact Or.inl hW
      · by_cases hlen : cands.length < 2
        · exact Or.inr hlen
        · left
          constructor
          · by_contra hneg
            exact h4 ⟨Or.inl (lt_of_not_le hneg), le_of_not_lt hlen⟩
          · by_contra hneg
            exact h4 ⟨Or.inr (lt_of_not_le hneg), le_of_not_lt hlen⟩
    · intro _
      exact ⟨_, rfl⟩


/-- Counterexample to C2 as stated: a run whose configuration has a
negative THETA and a target coalition size above N_VOTERS completes
without any abort. -/
theorem claim_C2_counter :
    (∃ g, Detailed.run_generation_detailedE scn2P scnVotersD scnCandsD scnNoise = Except.ok g) ∧
    scn2P.THETA < 0 ∧ (scn2P.N_VOTERS : ℚ) < scn2P.WINNING_COALITION_SIZE := by
  refine ⟨⟨Detailed.run_generation_detailed scn2P scnVotersD scnCandsD scnNoise, ?_⟩,
    by norm_num [scn2P], by norm_num [scn2P]⟩
  rw [Detailed.run_generation_detailedE]
  norm_num [scn2P, scnCandsD, scnVotersD]

/-- The private-goods division-by-zero path of
`run_generation_detailedE`: with a zero coalition size and PHI at zero,
a voter on top of a candidate is included, so the source would divide
`RESOURCE_POOL` by zero and the run aborts. -/
theorem run_detailedE_zero_coalition_err :
    Detailed.run_generation_detailedE
      { N_VOTERS := 2, RESOURCE_POOL := 1000, PUBLIC_GOODS_MUT_STD := 1/20,
        POLICY_MUT_STD := 2, THETA := 15, TAU := 3/5, PHI := 0,
        WINNING_COALITION_SIZE := 0 }
      [⟨0, RiskType.safe⟩] [⟨0, 1/2⟩] scnNoise =
      Except.error "division by zero" := by
  rw [Detailed.run_generation_detailedE]
  norm_num [Detailed.some_included, Detailed.Voter.inclusion, Detailed.threshold,
    Detailed.coal_prob_fixed, riskType_eq_false]


end PoliSim
